import Mathlib

set_option autoImplicit false

/-! Shallow embedding of the PDF page fuzzy-hashing pipeline (fuzzy_hashing.py)
and of the OCR orchestrator (ocr_all_pdfs_recursive.py).

External collaborators (rasterizer, ssdeep, md5, the file system, the OCR
binary) appear as function parameters or as fields of the data types below;
the control flow of each embedded function mirrors the python source. -/

/-- A row of the page_hashes table: pdf_path, page_number, page_hash, original_md5. -/
structure Row where
  pdf_path : String
  page_number : Nat
  page_hash : String
  original_md5 : String
deriving DecidableEq

/-- A record as returned by the SELECT inside find_similar_pages:
(pdf_path, page_number, original_md5). -/
abbrev Rec := String × Nat × String

/-- Rows of page_hashes sharing a given page_hash, projected to Rec
(the SELECT ... WHERE page_hash=? queries of find_similar_pages). -/
def records_for_hash (store : List Row) (h : String) : List Rec :=
  (store.filter (fun r => r.page_hash = h)).map
    (fun r => (r.pdf_path, r.page_number, r.original_md5))

/-- First-occurrence deduplication, modelling SELECT DISTINCT page_hash in
table-scan order. -/
def dedupFirstAux (seen : List String) : List String → List String
  | [] => []
  | h :: t => if h ∈ seen then dedupFirstAux seen t else h :: dedupFirstAux (h :: seen) t

/-- Distinct hashes in first-seen order. -/
def dedupFirst (l : List String) : List String := dedupFirstAux [] l

/-- All pairs (h_i, h_j) with i < j, in the nested-loop order of find_similar_pages. -/
def allPairs : List String → List (String × String)
  | [] => []
  | h :: t => t.map (fun x => (h, x)) ++ allPairs t

/-- Lookup in the defaultdict(list) model: the bucket of key q, empty when absent. -/
def lookupAssoc : List (String × List Rec) → String → List Rec
  | [], _ => []
  | (k, vs) :: rest, q => if k = q then vs else lookupAssoc rest q

/-- The python statement pair extending similar_pages[k] by vs: append to the
bucket of k, creating the bucket at the end when absent. -/
def extendAssoc : List (String × List Rec) → String → List Rec → List (String × List Rec)
  | [], k, vs => [(k, vs)]
  | (k1, vs1) :: rest, k, vs =>
    if k1 = k then (k1, vs1 ++ vs) :: rest else (k1, vs1) :: extendAssoc rest k vs

/-- One iteration of the double loop in find_similar_pages over the pair (h_i, h_j):
when the similarity reaches the threshold, the records of both hashes are
appended to the bucket keyed by h_i. -/
def clusterStep (cmp : String → String → Nat) (T : Nat) (store : List Row)
    (m : List (String × List Rec)) (p : String × String) : List (String × List Rec) :=
  if T ≤ cmp p.1 p.2 then
    extendAssoc m p.1 (records_for_hash store p.1 ++ records_for_hash store p.2)
  else m

/-- find_similar_pages: compare every ordered pair of distinct stored hashes and
bucket the matching ones. -/
def find_similar_pages (cmp : String → String → Nat) (T : Nat) (store : List Row) :
    List (String × List Rec) :=
  (allPairs (dedupFirst (store.map Row.page_hash))).foldl (clusterStep cmp T store) []

/-- A PDF document as seen through the external collaborators: its raw bytes, the
pdfinfo page-count probe (none = probe raises), and per-page rasterization to PNG
bytes (none = conversion raises for that page). -/
structure Pdf where
  bytes : List Nat
  pageCount : Option Nat
  renderPage : Nat → Option (List Nat)

/-- Page numbers 1..n, the loop range of hash_pdf_pages. -/
def pageNums (n : Nat) : List Nat := (List.range n).map (fun i => i + 1)

/-- The rows the open transaction of hash_pdf_pages accumulates over the given
page numbers; none when rasterizing one of them raises. -/
def page_rows (md5Fn ssdeepHash : List Nat → String) (path : String) (pdf : Pdf) :
    List Nat → Option (List Row)
  | [] => some []
  | k :: ks =>
    match pdf.renderPage k with
    | none => none
    | some img =>
      match page_rows md5Fn ssdeepHash path pdf ks with
      | none => none
      | some rows =>
        some ({ pdf_path := path, page_number := k, page_hash := ssdeepHash img,
                original_md5 := md5Fn pdf.bytes } :: rows)

/-- hash_pdf_pages: compute the whole-document md5 once, probe the page count,
insert one row per page inside one transaction, commit at the end; any exception
is caught after the connection is closed without commit, so the store is
unchanged on error. -/
def hash_pdf_pages (md5Fn ssdeepHash : List Nat → String) (path : String) (pdf : Pdf)
    (store : List Row) : List Row :=
  match pdf.pageCount with
  | none => store
  | some n =>
    match page_rows md5Fn ssdeepHash path pdf (pageNums n) with
    | none => store
    | some rows => store ++ rows

/-- fitz.open plus page extraction for one member record: the page content at
page_number of the source document, error when the source is missing/unreadable
or the page is out of range. -/
def loadPage (fs : String → Option (List String)) (path : String) (n : Nat) :
    Except String String :=
  match fs path with
  | none => Except.error path
  | some doc =>
    match doc.get? (n - 1) with
    | none => Except.error path
    | some pg => Except.ok pg

/-- Assemble the member pages of one bucket in order; the first failing member
raises, aborting the assembly. -/
def exportCluster (fs : String → Option (List String)) : List Rec → Except String (List String)
  | [] => Except.ok []
  | r :: rs =>
    match loadPage fs r.1 r.2.1 with
    | Except.error msg => Except.error msg
    | Except.ok pg =>
      match exportCluster fs rs with
      | Except.error msg => Except.error msg
      | Except.ok pgs => Except.ok (pg :: pgs)

/-- save_similar_pages: write one output document per bucket with more than one
record; an uncaught exception aborts the remaining iterations. The result is the
list of outputs written after the aborting point is discarded, paired with the
aborting error when one occurred. -/
def save_similar_pages (fs : String → Option (List String)) :
    List (String × List Rec) → List (String × List String) × Option String
  | [] => ([], none)
  | e :: rest =>
    if 1 < e.2.length then
      match exportCluster fs e.2 with
      | Except.error msg => ([], some msg)
      | Except.ok doc =>
        ((e.1, doc) :: (save_similar_pages fs rest).1, (save_similar_pages fs rest).2)
    else save_similar_pages fs rest

/-- The ocr_status table: rows (pdf_path, (status, attempts)), pdf_path primary key. -/
abbrev OcrDb := List (String × String × Nat)

/-- Primary-key lookup in ocr_status (the dict built by the status read). -/
def lookupOcr : OcrDb → String → Option (String × Nat)
  | [], _ => none
  | (p, sa) :: rest, q => if p = q then some sa else lookupOcr rest q

/-- INSERT OR REPLACE INTO ocr_status. -/
def update_ocr_status : OcrDb → String → String → Nat → OcrDb
  | [], p, st, a => [(p, st, a)]
  | (q, sa) :: rest, p, st, a =>
    if q = p then (p, st, a) :: rest else (q, sa) :: update_ocr_status rest p st a

/-- process_single_pdf: read the stored (status, attempts) with default
(pending, 0), run the external OCR tool (ok = exit code 0), and update the row;
returns the new table and whether the caught error was re-raised. -/
def process_single_pdf (db : OcrDb) (path : String) (retry_limit : Nat) (ok : Bool) :
    OcrDb × Bool :=
  let sa := (lookupOcr db path).getD ("pending", 0)
  if ok then (update_ocr_status db path "completed" sa.2, false)
  else if retry_limit ≤ sa.2 + 1 then (update_ocr_status db path "failed" (sa.2 + 1), false)
  else (update_ocr_status db path "retry" (sa.2 + 1), true)

/-- Successive invocations of process_single_pdf on one document, given the
outcome of each external OCR call. -/
def runInvocations (path : String) (retry_limit : Nat) (db : OcrDb)
    (outcomes : List Bool) : OcrDb :=
  outcomes.foldl (fun d o => (process_single_pdf d path retry_limit o).1) db

/-- The attempts counter currently stored for a document (0 when absent, like the
(pending, 0) default). -/
def attemptsOf (db : OcrDb) (q : String) : Nat := ((lookupOcr db q).getD ("pending", 0)).2

/-- The work list of process_pdfs: scanned files whose stored status is not
completed, paired with their stored attempts. -/
def work_list (db : OcrDb) (files : List String) : List (String × Nat) :=
  files.filterMap (fun p =>
    let sa := (lookupOcr db p).getD ("pending", 0)
    if sa.1 = "completed" then none else some (p, sa.2))

/-- One worker-pool pass: process every item, collecting the documents whose
invocation re-raised. -/
def run_pass (retry_limit : Nat) (oc : String → Bool) : OcrDb → List String → OcrDb × List String
  | db, [] => (db, [])
  | db, p :: rest =>
    let pr := process_single_pdf db p retry_limit (oc p)
    let r2 := run_pass retry_limit oc pr.1 rest
    (r2.1, if pr.2 then p :: r2.2 else r2.2)

/-- process_pdfs: read ocr_status once, build the work list (skipping completed
documents), run one bulk pass, then one retry pass over the documents that
raised. -/
def process_pdfs (db : OcrDb) (retry_limit : Nat) (files : List String)
    (o1 o2 : String → Bool) : OcrDb :=
  let items := (work_list db files).map Prod.fst
  let r1 := run_pass retry_limit o1 db items
  (run_pass retry_limit o2 r1.1 r1.2).1

/-- Concrete store with three distinct page hashes. -/
def storeABC : List Row :=
  [ { pdf_path := "pa", page_number := 1, page_hash := "a", original_md5 := "m" },
    { pdf_path := "pb", page_number := 1, page_hash := "b", original_md5 := "m" },
    { pdf_path := "pc", page_number := 1, page_hash := "c", original_md5 := "m" } ]

/-- Concrete comparison: hash a matches everything, the others match nothing. -/
def cmpA (x : String) (_ : String) : Nat := if x = "a" then 100 else 0

/-- Concrete comparison that always returns the maximal score. -/
def cmpConst (_ : String) (_ : String) : Nat := 100

/-- Concrete whole-document checksum collaborator. -/
def constMd5 (_ : List Nat) : String := "m"

/-- Concrete fuzzy-hash collaborator. -/
def constSsh (_ : List Nat) : String := "h"

/-- Concrete one-page document whose processing succeeds. -/
def onePagePdf : Pdf := { bytes := [0], pageCount := some 1, renderPage := fun _ => some [7] }

/-- Concrete two-page document whose processing succeeds. -/
def twoPagePdf : Pdf := { bytes := [1, 2], pageCount := some 2, renderPage := fun k => some [k] }

/-- Concrete three-page document whose middle page fails to rasterize. -/
def midFailPdf : Pdf :=
  { bytes := [0], pageCount := some 3, renderPage := fun k => if k = 2 then none else some [k] }

/-- Concrete file system where only the document named ok exists. -/
def fsMissing (p : String) : Option (List String) :=
  if p = "ok" then some ["P1", "P2"] else none

/-- Concrete bucket map whose first bucket has a missing member source and whose
second bucket is fully exportable. -/
def simMissing : List (String × List Rec) :=
  [ ("h1", [("gone", 1, "m"), ("ok", 1, "m")]),
    ("h2", [("ok", 1, "m"), ("ok", 2, "m")]) ]

/-- Concrete file system where every document exists with three pages. -/
def fsAll (_ : String) : Option (List String) := some ["P1", "P2", "P3"]

/-- Concrete bucket map with one bucket of two records and one singleton bucket. -/
def simTwo : List (String × List Rec) :=
  [ ("h1", [("a", 1, "m"), ("b", 2, "m")]), ("h2", [("c", 1, "m")]) ]

/-! Lemmas about the defaultdict model and the pair loop. -/

theorem lookup_extend_self (m : List (String × List Rec)) (k : String) (vs : List Rec) :
    lookupAssoc (extendAssoc m k vs) k = lookupAssoc m k ++ vs := by
  induction m with
  | nil => simp [extendAssoc, lookupAssoc]
  | cons e rest ih =>
    obtain ⟨k1, vs1⟩ := e
    by_cases h : k1 = k
    · subst h
      simp [extendAssoc, lookupAssoc]
    · simp [extendAssoc, lookupAssoc, h, ih]

theorem lookup_extend_other (m : List (String × List Rec)) (k q : String) (vs : List Rec)
    (hne : k ≠ q) :
    lookupAssoc (extendAssoc m k vs) q = lookupAssoc m q := by
  induction m with
  | nil => simp [extendAssoc, lookupAssoc, hne]
  | cons e rest ih =>
    obtain ⟨k1, vs1⟩ := e
    by_cases h : k1 = k
    · subst h
      simp [extendAssoc, lookupAssoc, hne]
    · by_cases hq : k1 = q
      · subst hq
        simp [extendAssoc, lookupAssoc, h, Ne.symm hne]
      · simp [extendAssoc, lookupAssoc, h, hq, ih]

theorem clusterStep_fire (cmp : String → String → Nat) (T : Nat) (store : List Row)
    (m : List (String × List Rec)) (hi hj : String) (hsim : T ≤ cmp hi hj) :
    clusterStep cmp T store m (hi, hj)
      = extendAssoc m hi (records_for_hash store hi ++ records_for_hash store hj) := by
  unfold clusterStep
  exact if_pos hsim

theorem clusterStep_skip (cmp : String → String → Nat) (T : Nat) (store : List Row)
    (m : List (String × List Rec)) (p : String × String) (h : ¬ T ≤ cmp p.1 p.2) :
    clusterStep cmp T store m p = m := by
  unfold clusterStep
  exact if_neg h

theorem mem_lookup_clusterStep (cmp : String → String → Nat) (T : Nat) (store : List Row)
    (m : List (String × List Rec)) (p : String × String) (q : String) (r : Rec)
    (h : r ∈ lookupAssoc m q) : r ∈ lookupAssoc (clusterStep cmp T store m p) q := by
  unfold clusterStep
  by_cases hc : T ≤ cmp p.1 p.2
  · rw [if_pos hc]
    by_cases hq : p.1 = q
    · subst hq
      rw [lookup_extend_self]
      exact List.mem_append_left _ h
    · rw [lookup_extend_other _ _ _ _ hq]
      exact h
  · rw [if_neg hc]
    exact h

theorem mem_lookup_foldl (cmp : String → String → Nat) (T : Nat) (store : List Row)
    (ps : List (String × String)) :
    ∀ m q r, r ∈ lookupAssoc m q →
      r ∈ lookupAssoc (ps.foldl (clusterStep cmp T store) m) q := by
  induction ps with
  | nil => intro m q r h; exact h
  | cons p ps ih =>
    intro m q r h
    rw [List.foldl_cons]
    exact ih _ q r (mem_lookup_clusterStep cmp T store m p q r h)

theorem allPairs_mem_split (l1 rest : List String) (hi hj : String) (hmem : hj ∈ rest) :
    (hi, hj) ∈ allPairs (l1 ++ hi :: rest) := by
  induction l1 with
  | nil =>
    simp only [List.nil_append, allPairs]
    exact List.mem_append_left _ (List.mem_map_of_mem _ hmem)
  | cons a l ih =>
    simp only [List.cons_append, allPairs]
    exact List.mem_append_right _ ih

/-- Claim C1 (counterexample): with three stored hashes a, b, c where hash a is
similar to both b and c, the bucket keyed by a holds the record of hash a twice:
the clusterer extends python lists and never deduplicates, so the bucket is not
a set union. -/
theorem cluster_bucket_has_duplicate_record :
    List.count (("pa", 1, "m") : Rec) (lookupAssoc (find_similar_pages cmpA 70 storeABC) "a") = 2
    ∧ ¬ (lookupAssoc (find_similar_pages cmpA 70 storeABC) "a").Nodup := by
  constructor
  · decide
  · decide

/-- Claim C1 (amended): whenever two distinct stored hashes h_i (seen first) and
h_j (seen later) compare at or above the threshold, every page record of h_i
and of h_j is placed into the bucket keyed by h_i; the bucket is a list built
by appending, not a set union, so a record may occur several times when h_i
matches several later hashes. -/
theorem cluster_bucket_collects_match_records
    (cmp : String → String → Nat) (T : Nat) (store : List Row)
    (l1 rest : List String) (hi hj : String) (r : Rec)
    (hsplit : dedupFirst (store.map Row.page_hash) = l1 ++ hi :: rest)
    (hmem : hj ∈ rest)
    (hsim : T ≤ cmp hi hj)
    (hr : r ∈ records_for_hash store hi ++ records_for_hash store hj) :
    r ∈ lookupAssoc (find_similar_pages cmp T store) hi := by
  unfold find_similar_pages
  rw [hsplit]
  obtain ⟨ps1, ps2, hps⟩ := List.append_of_mem (allPairs_mem_split l1 rest hi hj hmem)
  rw [hps, List.foldl_append, List.foldl_cons]
  apply mem_lookup_foldl
  rw [clusterStep_fire cmp T store _ hi hj hsim, lookup_extend_self]
  exact List.mem_append_right _ hr

/-- Claim C1 (witness): the amended theorem applied at the concrete store and
the matching pair (a, b). -/
theorem cluster_bucket_collects_match_records_inst :
    (("pb", 1, "m") : Rec) ∈ lookupAssoc (find_similar_pages cmpA 70 storeABC) "a" :=
  cluster_bucket_collects_match_records cmpA 70 storeABC [] ["b", "c"] "a" "b" ("pb", 1, "m")
    (by decide) (by decide) (by decide) (by decide)

/-- Claim C5: with a threshold strictly above 100 and a comparison primitive
bounded by 100, find_similar_pages returns the empty mapping. -/
theorem threshold_above_range_no_clusters (cmp : String → String → Nat) (T : Nat)
    (store : List Row) (hc : ∀ a b, cmp a b ≤ 100) (hT : 100 < T) :
    find_similar_pages cmp T store = [] := by
  unfold find_similar_pages
  generalize allPairs (dedupFirst (store.map Row.page_hash)) = ps
  induction ps with
  | nil => rfl
  | cons p ps ih =>
    have hstep : clusterStep cmp T store [] p = [] :=
      clusterStep_skip cmp T store [] p (fun hle => by have h2 := hc p.1 p.2; omega)
    rw [List.foldl_cons, hstep]
    exact ih

/-- Claim C5 (witness): threshold 101 with the constant maximal comparison
yields no clusters on the concrete store. -/
theorem threshold_above_range_no_clusters_inst :
    find_similar_pages cmpConst 101 storeABC = [] :=
  threshold_above_range_no_clusters cmpConst 101 storeABC
    (fun _ _ => Nat.le_refl 100) (by decide)

/-! Lemmas about the hashing transaction. -/

theorem page_rows_spec (md5Fn ssdeepHash : List Nat → String) (path : String) (pdf : Pdf) :
    ∀ (ks : List Nat) (rows : List Row),
      page_rows md5Fn ssdeepHash path pdf ks = some rows →
        rows.map Row.page_number = ks
        ∧ ∀ r ∈ rows, r.original_md5 = md5Fn pdf.bytes ∧ r.pdf_path = path := by
  intro ks
  induction ks with
  | nil =>
    intro rows h
    simp only [page_rows, Option.some.injEq] at h
    subst h
    simp
  | cons k ks ih =>
    intro rows h
    unfold page_rows at h
    cases himg : pdf.renderPage k with
    | none => rw [himg] at h; exact absurd h (by simp)
    | some img =>
      rw [himg] at h
      cases hrec : page_rows md5Fn ssdeepHash path pdf ks with
      | none => rw [hrec] at h; exact absurd h (by simp)
      | some rows2 =>
        rw [hrec] at h
        obtain ⟨hmap, hall⟩ := ih rows2 hrec
        injection h with h2
        subst h2
        constructor
        · simp [hmap]
        · intro r hr
          rcases List.mem_cons.mp hr with hr1 | hr2
          · subst hr1
            exact ⟨rfl, rfl⟩
          · exact hall r hr2

theorem page_rows_fail (md5Fn ssdeepHash : List Nat → String) (path : String) (pdf : Pdf) :
    ∀ (ks : List Nat) (k : Nat), k ∈ ks → pdf.renderPage k = none →
      page_rows md5Fn ssdeepHash path pdf ks = none := by
  intro ks
  induction ks with
  | nil => intro k hk _; cases hk
  | cons a ks ih =>
    intro k hk hnone
    unfold page_rows
    rcases List.mem_cons.mp hk with h1 | h2
    · subst h1
      rw [hnone]
    · cases himg : pdf.renderPage a with
      | none => rfl
      | some img => rw [ih k h2 hnone]

theorem hash_pdf_pages_some (md5Fn ssdeepHash : List Nat → String) (path : String)
    (pdf : Pdf) (store : List Row) (n : Nat) (hn : pdf.pageCount = some n) :
    hash_pdf_pages md5Fn ssdeepHash path pdf store
      = match page_rows md5Fn ssdeepHash path pdf (pageNums n) with
        | none => store
        | some rows => store ++ rows := by
  unfold hash_pdf_pages
  rw [hn]

/-- Claim C3: when the page-count probe and all rasterizations succeed, hashing a
document appends exactly n rows to the store, whose page numbers are 1..n in
order (each value exactly once) and which all carry the same whole-document
checksum and document path. -/
theorem hashing_stores_all_pages (md5Fn ssdeepHash : List Nat → String) (path : String)
    (pdf : Pdf) (store : List Row) (n : Nat) (rows : List Row)
    (hn : pdf.pageCount = some n)
    (hrows : page_rows md5Fn ssdeepHash path pdf (pageNums n) = some rows) :
    hash_pdf_pages md5Fn ssdeepHash path pdf store = store ++ rows
    ∧ rows.length = n
    ∧ rows.map Row.page_number = pageNums n
    ∧ (∀ v : Nat, (rows.map Row.page_number).count v = if 1 ≤ v ∧ v ≤ n then 1 else 0)
    ∧ ∀ r ∈ rows, r.original_md5 = md5Fn pdf.bytes ∧ r.pdf_path = path := by
  obtain ⟨hmap, hall⟩ := page_rows_spec md5Fn ssdeepHash path pdf (pageNums n) rows hrows
  refine ⟨?_, ?_, hmap, ?_, hall⟩
  · rw [hash_pdf_pages_some md5Fn ssdeepHash path pdf store n hn, hrows]
  · have hlen := congrArg List.length hmap
    simpa [pageNums] using hlen
  · intro v
    rw [hmap]
    by_cases hv : 1 ≤ v ∧ v ≤ n
    · rw [if_pos hv]
      apply List.count_eq_one_of_mem
      · apply List.Nodup.map
        · intro a b hab
          have hab2 : a + 1 = b + 1 := hab
          omega
        · exact List.nodup_range n
      · unfold pageNums
        rw [List.mem_map]
        exact ⟨v - 1, by rw [List.mem_range]; omega, by show v - 1 + 1 = v; omega⟩
    · rw [if_neg hv]
      apply List.count_eq_zero_of_not_mem
      unfold pageNums
      rw [List.mem_map]
      rintro ⟨i, hi, hiv⟩
      rw [List.mem_range] at hi
      omega

/-- Claim C3 (witness): the two-page document is hashed into two rows with page
numbers 1 and 2 and a shared checksum. -/
theorem hashing_stores_all_pages_inst :
    hash_pdf_pages constMd5 constSsh "w3" twoPagePdf []
      = [] ++ [ { pdf_path := "w3", page_number := 1, page_hash := "h", original_md5 := "m" },
                { pdf_path := "w3", page_number := 2, page_hash := "h", original_md5 := "m" } ] :=
  (hashing_stores_all_pages constMd5 constSsh "w3" twoPagePdf [] 2
    [ { pdf_path := "w3", page_number := 1, page_hash := "h", original_md5 := "m" },
      { pdf_path := "w3", page_number := 2, page_hash := "h", original_md5 := "m" } ]
    rfl rfl).1

/-- Claim C10: hashing a document is transactional: when the page-count probe
fails, or the rasterization of any page in range fails, nothing is committed and
the store is unchanged. -/
theorem hashing_atomic_on_failure (md5Fn ssdeepHash : List Nat → String) (path : String)
    (pdf : Pdf) (store : List Row)
    (h : pdf.pageCount = none
        ∨ ∃ n k, pdf.pageCount = some n ∧ 1 ≤ k ∧ k ≤ n ∧ pdf.renderPage k = none) :
    hash_pdf_pages md5Fn ssdeepHash path pdf store = store := by
  rcases h with h0 | ⟨n, k, hn, hk1, hkn, hfail⟩
  · unfold hash_pdf_pages
    rw [h0]
  · have hkin : k ∈ pageNums n := by
      unfold pageNums
      rw [List.mem_map]
      exact ⟨k - 1, by rw [List.mem_range]; omega, by show k - 1 + 1 = k; omega⟩
    rw [hash_pdf_pages_some md5Fn ssdeepHash path pdf store n hn,
      page_rows_fail md5Fn ssdeepHash path pdf (pageNums n) k hkin hfail]

/-- Claim C10 (witness): the three-page document whose middle page fails to
rasterize leaves the concrete store untouched. -/
theorem hashing_atomic_on_failure_inst :
    hash_pdf_pages constMd5 constSsh "w" midFailPdf storeABC = storeABC :=
  hashing_atomic_on_failure constMd5 constSsh "w" midFailPdf storeABC
    (Or.inr ⟨3, 2, rfl, by decide, by decide, rfl⟩)

/-- Claim C6 (counterexample): re-running hash_pdf_pages on an unchanged,
already-hashed one-page document appends its row again, so the store after the
second run differs from the store after the first run. -/
theorem rehash_duplicates_store :
    hash_pdf_pages constMd5 constSsh "d" onePagePdf
        (hash_pdf_pages constMd5 constSsh "d" onePagePdf [])
      ≠ hash_pdf_pages constMd5 constSsh "d" onePagePdf [] := by
  decide

/-- Claim C6 (amended): the hashing phase has no skip-if-completed policy:
re-running it on an already-fully-hashed, unchanged document appends every row a
second time, so the store grows by the same rows again instead of staying
equal. -/
theorem rehash_appends_rows_again (md5Fn ssdeepHash : List Nat → String) (path : String)
    (pdf : Pdf) (store : List Row) (n : Nat) (rows : List Row)
    (hn : pdf.pageCount = some n)
    (hrows : page_rows md5Fn ssdeepHash path pdf (pageNums n) = some rows) :
    hash_pdf_pages md5Fn ssdeepHash path pdf
        (hash_pdf_pages md5Fn ssdeepHash path pdf store) = store ++ rows ++ rows := by
  have h1 : hash_pdf_pages md5Fn ssdeepHash path pdf store = store ++ rows := by
    rw [hash_pdf_pages_some md5Fn ssdeepHash path pdf store n hn, hrows]
  rw [h1, hash_pdf_pages_some md5Fn ssdeepHash path pdf (store ++ rows) n hn, hrows]

/-- Claim C6 (witness): the amended theorem at the concrete one-page document. -/
theorem rehash_appends_rows_again_inst :
    hash_pdf_pages constMd5 constSsh "d" onePagePdf
        (hash_pdf_pages constMd5 constSsh "d" onePagePdf [])
      = [] ++ [ { pdf_path := "d", page_number := 1, page_hash := "h", original_md5 := "m" } ]
           ++ [ { pdf_path := "d", page_number := 1, page_hash := "h", original_md5 := "m" } ] :=
  rehash_appends_rows_again constMd5 constSsh "d" onePagePdf [] 1
    [ { pdf_path := "d", page_number := 1, page_hash := "h", original_md5 := "m" } ] rfl rfl

/-! Lemmas unfolding the export loop. -/

theorem save_cons_big_error (fs : String → Option (List String)) (a : String × List Rec)
    (rest : List (String × List Rec)) (msg : String) (ha : 1 < a.2.length)
    (hexp : exportCluster fs a.2 = Except.error msg) :
    save_similar_pages fs (a :: rest) = ([], some msg) := by
  unfold save_similar_pages
  rw [if_pos ha, hexp]

theorem save_cons_big_ok (fs : String → Option (List String)) (a : String × List Rec)
    (rest : List (String × List Rec)) (doc : List String) (ha : 1 < a.2.length)
    (hexp : exportCluster fs a.2 = Except.ok doc) :
    save_similar_pages fs (a :: rest)
      = ((a.1, doc) :: (save_similar_pages fs rest).1, (save_similar_pages fs rest).2) := by
  simp only [save_similar_pages]
  rw [if_pos ha, hexp]

theorem save_cons_small (fs : String → Option (List String)) (a : String × List Rec)
    (rest : List (String × List Rec)) (ha : ¬ 1 < a.2.length) :
    save_similar_pages fs (a :: rest) = save_similar_pages fs rest := by
  simp only [save_similar_pages]
  rw [if_neg ha]

theorem save_aborts_aux (fs : String → Option (List String)) (e : String × List Rec)
    (msg : String) (hbig : 1 < e.2.length)
    (hfail : exportCluster fs e.2 = Except.error msg) :
    ∀ sim : List (String × List Rec), e ∈ sim →
      ((save_similar_pages fs sim).2).isSome = true := by
  intro sim
  induction sim with
  | nil => intro hmem; cases hmem
  | cons a rest ih =>
    intro hmem
    rcases List.mem_cons.mp hmem with h1 | h2
    · subst h1
      rw [save_cons_big_error fs e rest msg hbig hfail]
      rfl
    · by_cases ha : 1 < a.2.length
      · cases hexp : exportCluster fs a.2 with
        | error m =>
          rw [save_cons_big_error fs a rest m ha hexp]
          rfl
        | ok doc =>
          rw [save_cons_big_ok fs a rest doc ha hexp]
          exact ih h2
      · rw [save_cons_small fs a rest ha]
        exact ih h2

/-- Claim C4 (counterexample): with the document named gone missing from the
file system, the export raises at the first bucket and writes nothing: the
fully exportable second bucket is never materialized, rather than the failing
member being skipped and the export continuing. -/
theorem export_does_not_skip_missing_member :
    save_similar_pages fsMissing simMissing = ([], some "gone")
    ∧ exportCluster fsMissing [("ok", 1, "m"), ("ok", 2, "m")] = Except.ok ["P1", "P2"] :=
  ⟨rfl, rfl⟩

/-- Claim C4 (amended): the exporter does not catch a missing or unreadable
member source: whenever any bucket with at least two records has a member whose
source fails to load, the whole export aborts with that error instead of
skipping the member and continuing with the remaining members and buckets. -/
theorem export_aborts_on_missing_source (fs : String → Option (List String))
    (sim : List (String × List Rec)) (e : String × List Rec) (msg : String)
    (hmem : e ∈ sim) (hbig : 1 < e.2.length)
    (hfail : exportCluster fs e.2 = Except.error msg) :
    ((save_similar_pages fs sim).2).isSome = true :=
  save_aborts_aux fs e msg hbig hfail sim hmem

/-- Claim C4 (witness): the amended theorem at the concrete missing-source
scenario. -/
theorem export_aborts_on_missing_source_inst :
    ((save_similar_pages fsMissing simMissing).2).isSome = true :=
  export_aborts_on_missing_source fsMissing simMissing
    ("h1", [("gone", 1, "m"), ("ok", 1, "m")]) "gone"
    (by decide) (by decide) rfl

/-- Claim C8: every materialized output comes from a bucket with at least two
records and carries that bucket's key and exported member pages (buckets with
fewer than two records are never written); on a run with no export error the
outputs are exactly one per such bucket, in order. -/
theorem exporter_materializes_big_buckets (fs : String → Option (List String))
    (sim : List (String × List Rec)) :
    (∀ out ∈ (save_similar_pages fs sim).1,
       ∃ e ∈ sim, e.1 = out.1 ∧ 2 ≤ e.2.length ∧ exportCluster fs e.2 = Except.ok out.2)
    ∧ ((save_similar_pages fs sim).2 = none →
       ((save_similar_pages fs sim).1).map Prod.fst
         = (sim.filter (fun e => 1 < e.2.length)).map Prod.fst) := by
  induction sim with
  | nil =>
    constructor
    · intro out hout
      cases hout
    · intro _
      rfl
  | cons a rest ih =>
    obtain ⟨ih1, ih2⟩ := ih
    by_cases ha : 1 < a.2.length
    · cases hexp : exportCluster fs a.2 with
      | error m =>
        rw [save_cons_big_error fs a rest m ha hexp]
        constructor
        · intro out hout
          cases hout
        · intro hnone
          exact absurd hnone (by simp)
      | ok doc =>
        rw [save_cons_big_ok fs a rest doc ha hexp]
        constructor
        · intro out hout
          rcases List.mem_cons.mp hout with h1 | h2
          · subst h1
            exact ⟨a, List.mem_cons_self a rest, rfl, ha, hexp⟩
          · obtain ⟨e, he, h⟩ := ih1 out h2
            exact ⟨e, List.mem_cons_of_mem a he, h⟩
        · intro hnone
          rw [List.map_cons, List.filter_cons_of_pos (by simpa using ha), List.map_cons,
            ih2 hnone]
    · rw [save_cons_small fs a rest ha]
      constructor
      · intro out hout
        obtain ⟨e, he, h⟩ := ih1 out hout
        exact ⟨e, List.mem_cons_of_mem a he, h⟩
      · intro hnone
        rw [ih2 hnone, List.filter_cons_of_neg (by simpa using ha)]

/-- Claim C8 (witness): on the concrete bucket map with one two-record bucket
and one singleton bucket and a total file system, the output keys are exactly
the keys of the buckets with more than one record. -/
theorem exporter_materializes_big_buckets_inst :
    ((save_similar_pages fsAll simTwo).1).map Prod.fst
      = (simTwo.filter (fun e => 1 < e.2.length)).map Prod.fst :=
  (exporter_materializes_big_buckets fsAll simTwo).2 rfl

/-! Lemmas about the ocr_status table and the orchestrator. -/

theorem lookupOcr_update_self (db : OcrDb) (p : String) (st : String) (a : Nat) :
    lookupOcr (update_ocr_status db p st a) p = some (st, a) := by
  induction db with
  | nil => simp [update_ocr_status, lookupOcr]
  | cons e rest ih =>
    obtain ⟨q, sa⟩ := e
    by_cases h : q = p
    · subst h
      simp [update_ocr_status, lookupOcr]
    · simp [update_ocr_status, lookupOcr, h, ih]

theorem lookupOcr_update_other (db : OcrDb) (p q : String) (st : String) (a : Nat)
    (hne : q ≠ p) :
    lookupOcr (update_ocr_status db p st a) q = lookupOcr db q := by
  induction db with
  | nil => simp [update_ocr_status, lookupOcr, Ne.symm hne]
  | cons e rest ih =>
    obtain ⟨k, sa⟩ := e
    by_cases h : k = p
    · subst h
      simp [update_ocr_status, lookupOcr, Ne.symm hne]
    · by_cases hq : k = q
      · subst hq
        simp [update_ocr_status, lookupOcr, h]
      · simp [update_ocr_status, lookupOcr, h, hq, ih]

theorem process_true_fst (db : OcrDb) (p : String) (rl : Nat) :
    (process_single_pdf db p rl true).1
      = update_ocr_status db p "completed" ((lookupOcr db p).getD ("pending", 0)).2 := rfl

theorem process_false_fst (db : OcrDb) (p : String) (rl : Nat) :
    (process_single_pdf db p rl false).1
      = update_ocr_status db p
          (if rl ≤ ((lookupOcr db p).getD ("pending", 0)).2 + 1 then "failed" else "retry")
          (((lookupOcr db p).getD ("pending", 0)).2 + 1) := by
  simp only [process_single_pdf]
  rw [if_neg Bool.false_ne_true]
  by_cases h : rl ≤ ((lookupOcr db p).getD ("pending", 0)).2 + 1
  · rw [if_pos h, if_pos h]
  · rw [if_neg h, if_neg h]

theorem process_lookup_other (db : OcrDb) (p q : String) (rl : Nat) (ok : Bool)
    (hne : q ≠ p) :
    lookupOcr (process_single_pdf db p rl ok).1 q = lookupOcr db q := by
  cases ok with
  | true => rw [process_true_fst, lookupOcr_update_other db p q _ _ hne]
  | false => rw [process_false_fst, lookupOcr_update_other db p q _ _ hne]

theorem process_step_lookup (db : OcrDb) (path : String) (rl : Nat) (o : Bool)
    (st : String) (a : Nat)
    (hdb : (lookupOcr db path).getD ("pending", 0) = (st, a)) :
    lookupOcr (process_single_pdf db path rl o).1 path
      = some (if o then ("completed", a)
              else if rl ≤ a + 1 then ("failed", a + 1) else ("retry", a + 1)) := by
  cases o with
  | true =>
    rw [process_true_fst, hdb]
    dsimp only
    rw [lookupOcr_update_self, if_pos rfl]
  | false =>
    rw [process_false_fst, hdb]
    dsimp only
    rw [lookupOcr_update_self, if_neg Bool.false_ne_true]
    by_cases h : rl ≤ a + 1
    · rw [if_pos h, if_pos h]
    · rw [if_neg h, if_neg h]

theorem runInvocations_append (path : String) (rl : Nat) (db : OcrDb)
    (l1 l2 : List Bool) :
    runInvocations path rl db (l1 ++ l2)
      = runInvocations path rl (runInvocations path rl db l1) l2 := by
  unfold runInvocations
  rw [List.foldl_append]

theorem runInvocations_single (path : String) (rl : Nat) (db : OcrDb) (o : Bool) :
    runInvocations path rl db [o] = (process_single_pdf db path rl o).1 := rfl

theorem run_k_failures (path : String) (rl : Nat) :
    ∀ k : Nat, k < rl →
      (k = 0 ∧ runInvocations path rl [] (List.replicate k false) = [])
      ∨ lookupOcr (runInvocations path rl [] (List.replicate k false)) path
          = some ("retry", k) := by
  intro k
  induction k with
  | zero => intro _; exact Or.inl ⟨rfl, rfl⟩
  | succ k ih =>
    intro hk
    refine Or.inr ?_
    rw [List.replicate_succ', runInvocations_append, runInvocations_single]
    rcases ih (by omega) with ⟨h0, hempty⟩ | hlk
    · subst h0
      rw [hempty, process_step_lookup [] path rl false "pending" 0 rfl]
      rw [if_neg Bool.false_ne_true, if_neg (by omega)]
    · rw [process_step_lookup _ path rl false "retry" k (by rw [hlk]; rfl)]
      rw [if_neg Bool.false_ne_true, if_neg (by omega)]

/-- Claim C2: the per-document retry state machine of the orchestrator: a
document failing exactly retry_limit - 1 times and then succeeding ends as
completed with attempts = retry_limit - 1; one failing retry_limit times ends
as failed with attempts = retry_limit; and each failing invocation increments
attempts by exactly one, transitioning to failed exactly when the incremented
attempts reaches retry_limit. -/
theorem ocr_retry_state_machine (rl : Nat) (path : String) (hrl : 1 ≤ rl) :
    lookupOcr (runInvocations path rl [] (List.replicate (rl - 1) false ++ [true])) path
      = some ("completed", rl - 1)
    ∧ lookupOcr (runInvocations path rl [] (List.replicate rl false)) path
      = some ("failed", rl)
    ∧ ∀ (db : OcrDb) (st : String) (a : Nat), lookupOcr db path = some (st, a) →
        lookupOcr (process_single_pdf db path rl false).1 path
          = some (if rl ≤ a + 1 then "failed" else "retry", a + 1) := by
  refine ⟨?_, ?_, ?_⟩
  · rw [runInvocations_append, runInvocations_single]
    rcases run_k_failures path rl (rl - 1) (by omega) with ⟨h0, hempty⟩ | hlk
    · rw [hempty, process_step_lookup [] path rl true "pending" 0 rfl, if_pos rfl, h0]
    · rw [process_step_lookup _ path rl true "retry" (rl - 1) (by rw [hlk]; rfl), if_pos rfl]
  · have hrep : List.replicate rl false = List.replicate (rl - 1) false ++ [false] := by
      conv_lhs => rw [show rl = (rl - 1) + 1 by omega, List.replicate_succ']
    rw [hrep, runInvocations_append, runInvocations_single]
    rcases run_k_failures path rl (rl - 1) (by omega) with ⟨h0, hempty⟩ | hlk
    · have h1 : rl = 1 := by omega
      subst h1
      rw [hempty, process_step_lookup [] path 1 false "pending" 0 rfl]
      rw [if_neg Bool.false_ne_true, if_pos (by omega)]
    · rw [process_step_lookup _ path rl false "retry" (rl - 1) (by rw [hlk]; rfl)]
      rw [if_neg Bool.false_ne_true, if_pos (by omega), show rl - 1 + 1 = rl by omega]
  · intro db st a hdb
    rw [process_step_lookup db path rl false st a (by rw [hdb]; rfl)]
    rw [if_neg Bool.false_ne_true]
    by_cases h2 : rl ≤ a + 1
    · rw [if_pos h2, if_pos h2]
    · rw [if_neg h2, if_neg h2]

/-- Claim C2 (witness): with retry limit 3, two failures then a success end as
completed with 2 attempts. -/
theorem ocr_retry_state_machine_inst :
    lookupOcr (runInvocations "a" 3 [] (List.replicate (3 - 1) false ++ [true])) "a"
      = some ("completed", 3 - 1) :=
  (ocr_retry_state_machine 3 "a" (by decide)).1

theorem run_pass_fst_lookup (rl : Nat) (oc : String → Bool) :
    ∀ (items : List String) (db : OcrDb) (q : String), q ∉ items →
      lookupOcr (run_pass rl oc db items).1 q = lookupOcr db q := by
  intro items
  induction items with
  | nil => intro db q _; rfl
  | cons p rest ih =>
    intro db q hq
    have hqp : q ≠ p := fun h => hq (h ▸ List.mem_cons_self p rest)
    have hqrest : q ∉ rest := fun h => hq (List.mem_cons_of_mem p h)
    simp only [run_pass]
    rw [ih _ q hqrest, process_lookup_other db p q rl (oc p) hqp]

theorem run_pass_snd_subset (rl : Nat) (oc : String → Bool) :
    ∀ (items : List String) (db : OcrDb) (x : String),
      x ∈ (run_pass rl oc db items).2 → x ∈ items := by
  intro items
  induction items with
  | nil =>
    intro db x hx
    cases hx
  | cons p rest ih =>
    intro db x hx
    simp only [run_pass] at hx
    by_cases hb : (process_single_pdf db p rl (oc p)).2 = true
    · rw [if_pos hb] at hx
      rcases List.mem_cons.mp hx with h1 | h2
      · exact h1 ▸ List.mem_cons_self p rest
      · exact List.mem_cons_of_mem p (ih _ x h2)
    · rw [if_neg hb] at hx
      exact List.mem_cons_of_mem p (ih _ x hx)

/-- Claim C7: a document whose persisted status is completed is excluded from
the work list by the directory scan, so the whole orchestrator run performs no
OCR invocation and no status update for it: its stored row is unchanged after
process_pdfs. -/
theorem completed_doc_skipped (db : OcrDb) (rl : Nat) (files : List String)
    (o1 o2 : String → Bool) (p : String) (a : Nat)
    (h : lookupOcr db p = some ("completed", a)) :
    p ∉ (work_list db files).map Prod.fst
    ∧ lookupOcr (process_pdfs db rl files o1 o2) p = some ("completed", a) := by
  have hnot : p ∉ (work_list db files).map Prod.fst := by
    intro hp
    rw [List.mem_map] at hp
    obtain ⟨⟨p2, a2⟩, hmem, hfst⟩ := hp
    unfold work_list at hmem
    rw [List.mem_filterMap] at hmem
    obtain ⟨x, hx, hfx⟩ := hmem
    dsimp only at hfx
    by_cases hc : ((lookupOcr db x).getD ("pending", 0)).1 = "completed"
    · rw [if_pos hc] at hfx
      cases hfx
    · rw [if_neg hc] at hfx
      simp only [Option.some.injEq, Prod.mk.injEq] at hfx
      obtain ⟨hxp, _⟩ := hfx
      apply hc
      have hp2 : p2 = p := hfst
      rw [hxp, hp2, h]
      rfl
  refine ⟨hnot, ?_⟩
  simp only [process_pdfs]
  have hnot2 : p ∉ (run_pass rl o1 db ((work_list db files).map Prod.fst)).2 :=
    fun hp => hnot (run_pass_snd_subset rl o1 _ db p hp)
  rw [run_pass_fst_lookup rl o2 _ _ p hnot2,
    run_pass_fst_lookup rl o1 _ db p hnot]
  exact h

/-- Claim C7 (witness): a concrete completed document among the scanned files is
neither put on the work list nor has its row changed by the run. -/
theorem completed_doc_skipped_inst :
    "a" ∉ (work_list [("a", "completed", 1)] ["a", "b"]).map Prod.fst
    ∧ lookupOcr
        (process_pdfs [("a", "completed", 1)] 3 ["a", "b"]
          (fun _ => true) (fun _ => true)) "a"
      = some ("completed", 1) :=
  completed_doc_skipped [("a", "completed", 1)] 3 ["a", "b"]
    (fun _ => true) (fun _ => true) "a" 1 (by decide)

theorem attempts_step_le (db : OcrDb) (p : String) (rl : Nat) (o : Bool) (q : String) :
    attemptsOf db q ≤ attemptsOf (process_single_pdf db p rl o).1 q := by
  by_cases hq : q = p
  · subst hq
    cases o with
    | true =>
      rw [process_true_fst]
      unfold attemptsOf
      rw [lookupOcr_update_self]
      exact Nat.le_refl _
    | false =>
      rw [process_false_fst]
      unfold attemptsOf
      rw [lookupOcr_update_self]
      simp only [Option.getD_some]
      omega
  · unfold attemptsOf
    rw [process_lookup_other db p q rl o hq]

/-- Claim C9: across any sequence of orchestrator invocations the persisted
attempts counter of every document never decreases; a single invocation leaves
the counter of the processed document unchanged on success and increments it by
exactly one on failure. -/
theorem ocr_attempts_never_decrease (db : OcrDb) (ops : List (String × Nat × Bool))
    (q : String) :
    attemptsOf db q
      ≤ attemptsOf
          (ops.foldl (fun d op => (process_single_pdf d op.1 op.2.1 op.2.2).1) db) q
    ∧ ∀ (p : String) (rl : Nat) (o : Bool),
        attemptsOf (process_single_pdf db p rl o).1 p
          = attemptsOf db p + (if o then 0 else 1) := by
  constructor
  · induction ops generalizing db with
    | nil => exact Nat.le_refl _
    | cons op ops ih =>
      rw [List.foldl_cons]
      exact Nat.le_trans (attempts_step_le db op.1 op.2.1 op.2.2 q) (ih _)
  · intro p rl o
    cases o with
    | true =>
      rw [process_true_fst]
      unfold attemptsOf
      rw [lookupOcr_update_self, if_pos rfl]
      simp
    | false =>
      rw [process_false_fst]
      unfold attemptsOf
      rw [lookupOcr_update_self, if_neg Bool.false_ne_true]
      simp

/-- Claim C9 (witness): one failing invocation on a fresh store does not
decrease the stored attempts counter. -/
theorem ocr_attempts_never_decrease_inst :
    attemptsOf [] "a"
      ≤ attemptsOf
          ([("a", 3, false)].foldl
            (fun d op => (process_single_pdf d op.1 op.2.1 op.2.2).1) []) "a" :=
  (ocr_attempts_never_decrease [] [("a", 3, false)] "a").1
